import Mathlib

set_option autoImplicit false

/-!
Shallow embedding of the WowPages signaling relay (src/server.js and the
variant with the HTTP passthrough endpoint) in Lean 4.

The JavaScript `users` object is modelled as an insertion-ordered
association list from socket id to presence record, matching the
enumeration order of `Object.keys` / `Object.values` for string keys.
`socket.to(room).emit(...)` delivers to every connected socket in the room
except the sender; each socket is a member of the room named by its own id.
`io.emit(...)` delivers to every connected socket.  JavaScript runtime
errors (reading a property of `undefined`) are modelled with `Except`.
-/

namespace WowPages

/-- A presence record, as stored by `users[socket.id] = { username, id: socket.id }`. -/
structure UserRecord where
  username : String
  id : String
deriving DecidableEq, Repr

/-- The `users` object: an insertion-ordered map from socket id to record. -/
abbrev Registry := List (String × UserRecord)

/-- Property read `users[k]`: the record stored at key `k`, if present. -/
def getKey (users : Registry) (k : String) : Option UserRecord :=
  (users.find? (fun p => decide (p.1 = k))).map (fun p => p.2)

/-- `Object.values(users)` in key insertion order. -/
def objectValues (users : Registry) : List UserRecord :=
  users.map (fun p => p.2)

/-- `Object.keys(users)` in key insertion order. -/
def objectKeys (users : Registry) : List String :=
  users.map (fun p => p.1)

/-- Property write `users[k] = v`: replaces an existing entry in place
(keeping its position, as JavaScript objects do) or appends a new one. -/
def setKey (users : Registry) (k : String) (v : UserRecord) : Registry :=
  if k ∈ objectKeys users then
    users.map (fun p => if p.1 = k then (k, v) else p)
  else
    users ++ [(k, v)]

/-- `delete users[k]`: removes the entry if present, a no-op otherwise. -/
def deleteKey (users : Registry) (k : String) : Registry :=
  users.filter (fun p => decide (p.1 ≠ k))

/-- `Object.keys(users).find(key => users[key].username === to)`: the first
key, in object iteration order, whose record carries the given username. -/
def findKeyByUsername (users : Registry) (name : String) : Option String :=
  (users.find? (fun p => decide (p.2.username = name))).map (fun p => p.1)

/-- The events the server emits to clients. -/
inductive ServerEvent where
  | offer (from_ : String) (offer : String)
  | answer (from_ : String) (answer : String)
  | iceCandidate (from_ : String) (candidate : String)
  | callRejected (from_ : String)
  | hangUp
  | updateUsers (userList : List UserRecord)
deriving DecidableEq, Repr

/-- The `from` field carried by a server event, if the event has one. -/
def eventFrom : ServerEvent → Option String
  | .offer f _ => some f
  | .answer f _ => some f
  | .iceCandidate f _ => some f
  | .callRejected f => some f
  | .hangUp => none
  | .updateUsers _ => none

/-- One delivery: target socket id paired with the event it receives. -/
abbrev Delivery := String × ServerEvent

/-- `socket.to(room).emit(ev)`: deliver `ev` to every connected socket in
`room`, excluding the sender.  A socket belongs to the room named by its
own id, so membership in room `room` is the test `s == room`. -/
def emitToRoom (connected : List String) (sender room : String) (ev : ServerEvent) :
    List Delivery :=
  (connected.filter (fun s => decide (s = room ∧ s ≠ sender))).map (fun s => (s, ev))

/-- `io.emit(ev)`: deliver `ev` to every connected socket. -/
def ioEmit (connected : List String) (ev : ServerEvent) : List Delivery :=
  connected.map (fun s => (s, ev))

/-- The server's mutable state: the connected socket ids (in connection
order) and the `users` registry. -/
structure ServerState where
  connected : List String
  users : Registry
deriving DecidableEq, Repr

/-- A JavaScript runtime error thrown by a handler. -/
inductive JsError where
  | typeError (message : String)
deriving DecidableEq, Repr

/-- The error thrown by `users[socket.id].username` when `users[socket.id]`
is `undefined` (the sender has no registry entry). -/
def undefinedUsernameError : JsError :=
  .typeError "Cannot read properties of undefined (reading username)"

/-- Handler for `join`: `users[socket.id] = { username, id: socket.id }`
followed by `io.emit('update-users', Object.values(users))`. -/
def onJoin (st : ServerState) (sender username : String) :
    ServerState × List Delivery :=
  let users' := setKey st.users sender { username := username, id := sender }
  let st' := { st with users := users' }
  (st', ioEmit st'.connected (.updateUsers (objectValues users')))

/-- Handler for `offer`: resolve `to` among usernames; if resolved, emit
`offer { from: users[socket.id].username, offer }` to the target room
(throwing if the sender has no registry entry); otherwise do nothing. -/
def onOffer (st : ServerState) (sender dest offer : String) :
    Except JsError (ServerState × List Delivery) :=
  match findKeyByUsername st.users dest with
  | some toSocket =>
    match getKey st.users sender with
    | some senderRec =>
      .ok (st, emitToRoom st.connected sender toSocket (.offer senderRec.username offer))
    | none => .error undefinedUsernameError
  | none => .ok (st, [])

/-- Handler for `answer`, structured exactly like `onOffer`. -/
def onAnswer (st : ServerState) (sender dest answer : String) :
    Except JsError (ServerState × List Delivery) :=
  match findKeyByUsername st.users dest with
  | some toSocket =>
    match getKey st.users sender with
    | some senderRec =>
      .ok (st, emitToRoom st.connected sender toSocket (.answer senderRec.username answer))
    | none => .error undefinedUsernameError
  | none => .ok (st, [])

/-- Handler for `ice-candidate`, structured exactly like `onOffer`. -/
def onIceCandidate (st : ServerState) (sender dest candidate : String) :
    Except JsError (ServerState × List Delivery) :=
  match findKeyByUsername st.users dest with
  | some toSocket =>
    match getKey st.users sender with
    | some senderRec =>
      .ok (st, emitToRoom st.connected sender toSocket (.iceCandidate senderRec.username candidate))
    | none => .error undefinedUsernameError
  | none => .ok (st, [])

/-- Handler for `reject-call`: like `onOffer` but the emitted event is
`call-rejected { from }` with no further payload. -/
def onRejectCall (st : ServerState) (sender dest : String) :
    Except JsError (ServerState × List Delivery) :=
  match findKeyByUsername st.users dest with
  | some toSocket =>
    match getKey st.users sender with
    | some senderRec =>
      .ok (st, emitToRoom st.connected sender toSocket (.callRejected senderRec.username))
    | none => .error undefinedUsernameError
  | none => .ok (st, [])

/-- Handler for `hang-up`: resolve `to`; if resolved, emit a bare
`hang-up` event (the source passes no argument object, so no `from`
field and no sender lookup); otherwise do nothing. -/
def onHangUp (st : ServerState) (sender dest : String) :
    Except JsError (ServerState × List Delivery) :=
  match findKeyByUsername st.users dest with
  | some toSocket =>
    .ok (st, emitToRoom st.connected sender toSocket .hangUp)
  | none => .ok (st, [])

/-- Handler for `disconnect`: the socket has already left, so it is removed
from the connected list; then `delete users[socket.id]` and
`io.emit('update-users', Object.values(users))`. -/
def onDisconnect (st : ServerState) (sender : String) :
    ServerState × List Delivery :=
  let connected' := st.connected.filter (fun s => decide (s ≠ sender))
  let users' := deleteKey st.users sender
  let st' : ServerState := { connected := connected', users := users' }
  (st', ioEmit connected' (.updateUsers (objectValues users')))

/-- The client-to-server events handled inside `io.on('connection', ...)`. -/
inductive ClientEvent where
  | join (username : String)
  | offer (dest : String) (offer : String)
  | answer (dest : String) (answer : String)
  | iceCandidate (dest : String) (candidate : String)
  | rejectCall (dest : String)
  | hangUp (dest : String)
  | disconnect
deriving DecidableEq, Repr

/-- Dispatch of one client event to its handler, as registered by the
`socket.on` calls. -/
def serverStep (st : ServerState) (sender : String) :
    ClientEvent → Except JsError (ServerState × List Delivery)
  | .join u => .ok (onJoin st sender u)
  | .offer dest p => onOffer st sender dest p
  | .answer dest p => onAnswer st sender dest p
  | .iceCandidate dest p => onIceCandidate st sender dest p
  | .rejectCall dest => onRejectCall st sender dest
  | .hangUp dest => onHangUp st sender dest
  | .disconnect => .ok (onDisconnect st sender)

/-- The five negotiation messages addressed to `to` (the first three with
payload `payload`). -/
def relayEvents (dest payload : String) : List ClientEvent :=
  [.offer dest payload, .answer dest payload, .iceCandidate dest payload,
   .rejectCall dest, .hangUp dest]

/-- Well-formedness of a server state: no duplicate socket ids among the
registry keys or the connected list, every registered socket is connected,
and every record's `id` field matches its key. -/
def WFState (st : ServerState) : Prop :=
  (objectKeys st.users).Nodup ∧ st.connected.Nodup ∧
  (∀ p ∈ st.users, p.1 ∈ st.connected) ∧ (∀ p ∈ st.users, p.2.id = p.1)

/-! ### Trace semantics for presence (joins and disconnects)

To state the presence invariant we run the server over a finite sequence of
transport connections, `join` messages and disconnects, remembering the user
list carried by the most recent `update-users` broadcast. -/

/-- One lifecycle event in a presence trace. -/
inductive TraceEvent where
  | connect (sid : String)
  | join (sid : String) (username : String)
  | disconnect (sid : String)
deriving DecidableEq, Repr

/-- The server state together with the user list carried by the most recent
`update-users` broadcast (none if no mutation happened yet). -/
structure TraceState where
  st : ServerState
  lastSnapshot : Option (List UserRecord)
deriving DecidableEq, Repr

/-- Process one lifecycle event: `connect` adds the socket to the connected
list, `join` and `disconnect` run their handlers and record the broadcast
user list. -/
def traceStep (ts : TraceState) : TraceEvent → TraceState
  | .connect sid =>
    { ts with st := { ts.st with connected := ts.st.connected ++ [sid] } }
  | .join sid username =>
    let r := onJoin ts.st sid username
    { st := r.1, lastSnapshot := some (objectValues r.1.users) }
  | .disconnect sid =>
    let r := onDisconnect ts.st sid
    { st := r.1, lastSnapshot := some (objectValues r.1.users) }

/-- Run a whole trace. -/
def runTrace (ts : TraceState) : List TraceEvent → TraceState
  | [] => ts
  | ev :: rest => runTrace (traceStep ts ev) rest

/-- The initial state: no sockets connected, empty registry, no broadcast yet. -/
def initTS : TraceState :=
  { st := { connected := [], users := [] }, lastSnapshot := none }

/-- A trace is well formed relative to the current connected list when
`connect` introduces a fresh socket id and `join`/`disconnect` come from a
currently connected socket (as the transport guarantees). -/
def wfTrace (connected : List String) : List TraceEvent → Bool
  | [] => true
  | .connect sid :: rest =>
    decide (sid ∉ connected) && wfTrace (connected ++ [sid]) rest
  | .join sid _ :: rest =>
    decide (sid ∈ connected) && wfTrace connected rest
  | .disconnect sid :: rest =>
    decide (sid ∈ connected) && wfTrace (connected.filter (fun s => decide (s ≠ sid))) rest

/-- The registry record a trace leaves for socket `sid`, starting from base
record `base`: a `join` by `sid` installs `{ username, id: sid }`, a
`disconnect` of `sid` clears it, every other event leaves it alone. -/
def expectedRec (tr : List TraceEvent) (sid : String) (base : Option UserRecord) :
    Option UserRecord :=
  tr.foldl
    (fun acc ev =>
      match ev with
      | .join s n => if s = sid then some { username := n, id := s } else acc
      | .disconnect s => if s = sid then none else acc
      | .connect _ => acc)
    base

/-- Whether a trace contains a registry mutation (a join or a disconnect). -/
def hasMutation : List TraceEvent → Bool
  | [] => false
  | .connect _ :: rest => hasMutation rest
  | .join _ _ :: _ => true
  | .disconnect _ :: _ => true

/-! ### The HTTP passthrough endpoint (`app.get('/proxy')`)

The axios fetch and `new URL(targetUrl).origin` are library calls; the
handler is modelled as a function of the query parameter, the computed
origin and the fetch outcome. -/

/-- The options object passed to `axios.get`. -/
structure AxiosConfig where
  timeout : Nat
  maxRedirects : Nat
deriving DecidableEq, Repr

/-- The literal config in the proxy handler: `timeout: 10000, maxRedirects: 5`. -/
def proxyAxiosConfig : AxiosConfig :=
  { timeout := 10000, maxRedirects := 5 }

/-- Outcome of the awaited `axios.get` call: the response body on success,
or a thrown error (timeout, redirect cap, network failure, bad status). -/
inductive FetchResult where
  | success (html : String)
  | failure (message : String)
deriving DecidableEq, Repr

/-- Body of an HTTP response sent by the proxy route. -/
inductive ResponseBody where
  | html (content : String)
  | errorJson (error : String) (details : Option String)
deriving DecidableEq, Repr

/-- An HTTP response: status code and body. -/
structure HttpResponse where
  status : Nat
  body : ResponseBody
deriving DecidableEq, Repr

/-- JavaScript `s.replace(pat, repl)` with a plain-string pattern: replace
the first occurrence only (the pattern is assumed nonempty, as it is at the
only call site, `<head>`). -/
def replaceFirst (s pat repl : String) : String :=
  match s.splitOn pat with
  | [] => s
  | [_] => s
  | x :: rest => x ++ repl ++ String.intercalate pat rest

/-- The HTML rewriting pipeline of the proxy handler: globally rewrite
root-relative `href="/`, `src="/` and `action="/` attribute values against
the target origin, then splice a `<base>` tag after the first `<head>`. -/
def rewriteHtml (baseUrl targetUrl html : String) : String :=
  let h1 := html.replace "href=\"/" ("href=\"" ++ baseUrl ++ "/")
  let h2 := h1.replace "src=\"/" ("src=\"" ++ baseUrl ++ "/")
  let h3 := h2.replace "action=\"/" ("action=\"" ++ baseUrl ++ "/")
  replaceFirst h3 "<head>" ("<head><base href=\"" ++ targetUrl ++ "\">")

/-- The `/proxy` route handler.  `urlParam` is `req.query.url` (`none` when
absent; the empty string is falsy in JavaScript, so it is also rejected with
status 400).  `origin` stands for `new URL(targetUrl).origin` and `fetch`
for the outcome of `axios.get`; any fetch failure lands in the `catch`
block, which responds 500 with an error body. -/
def proxyHandler (urlParam : Option String) (origin : String) (fetch : FetchResult) :
    HttpResponse :=
  match urlParam with
  | none => { status := 400, body := .errorJson "URL parameter is required" none }
  | some targetUrl =>
    if targetUrl = "" then
      { status := 400, body := .errorJson "URL parameter is required" none }
    else
      match fetch with
      | .success html =>
        { status := 200, body := .html (rewriteHtml origin targetUrl html) }
      | .failure msg =>
        { status := 500, body := .errorJson "Failed to fetch website" (some msg) }

/-- The proxy route paired with the signaling state: the handler body never
reads or writes `users` or any socket, so the server state passes through
untouched. -/
def proxyStep (st : ServerState) (urlParam : Option String) (origin : String)
    (fetch : FetchResult) : ServerState × HttpResponse :=
  (st, proxyHandler urlParam origin fetch)

/-! ### Helper lemmas about the registry operations -/

theorem getKey_cons (p : String × UserRecord) (u : Registry) (k : String) :
    getKey (p :: u) k = if p.1 = k then some p.2 else getKey u k := by
  unfold getKey
  by_cases h : p.1 = k
  · rw [List.find?_cons_of_pos _ (by simpa using h), if_pos h]
    rfl
  · rw [List.find?_cons_of_neg _ (by simpa using h), if_neg h]

theorem getKey_append (u v : Registry) (k : String) :
    getKey (u ++ v) k = (getKey u k).or (getKey v k) := by
  induction u with
  | nil => simp [getKey]
  | cons p rest ih =>
    rw [List.cons_append, getKey_cons, getKey_cons]
    by_cases h : p.1 = k
    · rw [if_pos h, if_pos h]
      rfl
    · rw [if_neg h, if_neg h, ih]

theorem getKey_eq_none_iff (u : Registry) (k : String) :
    getKey u k = none ↔ ∀ p ∈ u, p.1 ≠ k := by
  induction u with
  | nil => simp [getKey]
  | cons p rest ih =>
    rw [getKey_cons]
    by_cases h : p.1 = k <;> simp [h, ih]

theorem mem_objectKeys_iff (u : Registry) (k : String) :
    k ∈ objectKeys u ↔ ∃ p ∈ u, p.1 = k := by
  simp [objectKeys]

theorem getKey_updateMap (u : Registry) (k k' : String) (v : UserRecord) :
    getKey (u.map fun p => if p.1 = k then (k, v) else p) k' =
      if k' = k then (if k ∈ objectKeys u then some v else none)
      else getKey u k' := by
  induction u with
  | nil => by_cases h : k' = k <;> simp [getKey, objectKeys, h]
  | cons p rest ih =>
    rw [List.map_cons, getKey_cons, getKey_cons]
    by_cases hp : p.1 = k
    · rw [if_pos hp]
      have hkmem : k ∈ objectKeys (p :: rest) :=
        (mem_objectKeys_iff _ _).mpr ⟨p, List.mem_cons_self p rest, hp⟩
      by_cases hk : k' = k
      · simp [hk, hkmem]
      · have h1 : ¬ ((k, v).1 = k') := fun hc => hk hc.symm
        have h2 : ¬ (p.1 = k') := fun hc => hk (hc.symm.trans hp)
        rw [if_neg h1, ih, if_neg hk, if_neg hk, if_neg h2]
    · rw [if_neg hp]
      by_cases hk : k' = k
      · subst hk
        rw [if_neg hp, ih, if_pos rfl, if_pos rfl]
        have hiff : k' ∈ objectKeys (p :: rest) ↔ k' ∈ objectKeys rest := by
          simp only [objectKeys, List.map_cons, List.mem_cons]
          constructor
          · rintro (h | h)
            · exact absurd h.symm hp
            · exact h
          · exact fun h => Or.inr h
        rw [if_congr hiff rfl rfl]
      · rw [ih, if_neg hk, if_neg hk]

theorem getKey_setKey_self (u : Registry) (k : String) (v : UserRecord) :
    getKey (setKey u k v) k = some v := by
  unfold setKey
  by_cases h : k ∈ objectKeys u
  · rw [if_pos h, getKey_updateMap, if_pos rfl, if_pos h]
  · rw [if_neg h, getKey_append]
    have hnone : getKey u k = none := by
      rw [getKey_eq_none_iff]
      intro p hp hc
      exact h ((mem_objectKeys_iff u k).mpr ⟨p, hp, hc⟩)
    rw [hnone]
    simp [getKey_cons]

theorem getKey_setKey_ne (u : Registry) (k k' : String) (v : UserRecord)
    (hne : k' ≠ k) : getKey (setKey u k v) k' = getKey u k' := by
  unfold setKey
  by_cases h : k ∈ objectKeys u
  · rw [if_pos h, getKey_updateMap, if_neg hne]
  · rw [if_neg h, getKey_append, getKey_cons]
    have : ¬ ((k, v).1 = k') := fun hc => hne hc.symm
    rw [if_neg this]
    cases hval : getKey u k' <;> simp [getKey]

theorem objectKeys_setKey (u : Registry) (k : String) (v : UserRecord) :
    objectKeys (setKey u k v) =
      if k ∈ objectKeys u then objectKeys u else objectKeys u ++ [k] := by
  unfold setKey
  by_cases h : k ∈ objectKeys u
  · rw [if_pos h, if_pos h]
    unfold objectKeys
    rw [List.map_map]
    apply List.map_congr_left
    intro p _
    by_cases hp : p.1 = k <;> simp [hp]
  · rw [if_neg h, if_neg h]
    simp [objectKeys]

theorem nodup_objectKeys_setKey (u : Registry) (k : String) (v : UserRecord)
    (h : (objectKeys u).Nodup) : (objectKeys (setKey u k v)).Nodup := by
  rw [objectKeys_setKey]
  by_cases hk : k ∈ objectKeys u
  · simpa [hk] using h
  · simp only [hk, if_false]
    refine List.Nodup.append h (List.nodup_singleton k) ?_
    intro a ha hb
    rw [List.mem_singleton] at hb
    exact hk (hb ▸ ha)

theorem getKey_deleteKey_self (u : Registry) (k : String) :
    getKey (deleteKey u k) k = none := by
  rw [getKey_eq_none_iff]
  intro p hp
  have := List.of_mem_filter hp
  simpa using this

theorem getKey_deleteKey_ne (u : Registry) (k k' : String) (hne : k' ≠ k) :
    getKey (deleteKey u k) k' = getKey u k' := by
  induction u with
  | nil => rfl
  | cons p rest ih =>
    unfold deleteKey at ih ⊢
    by_cases hp : p.1 = k
    · rw [List.filter_cons_of_neg (by simpa using hp), ih, getKey_cons]
      have hpk' : ¬ (p.1 = k') := fun hc => hne (hc ▸ hp)
      rw [if_neg hpk']
    · rw [List.filter_cons_of_pos (by simpa using hp), getKey_cons, getKey_cons, ih]

theorem deleteKey_of_absent (u : Registry) (k : String)
    (h : getKey u k = none) : deleteKey u k = u := by
  rw [getKey_eq_none_iff] at h
  apply List.filter_eq_self.mpr
  intro p hp
  simpa using h p hp

theorem objectKeys_deleteKey (u : Registry) (k : String) :
    objectKeys (deleteKey u k) = (objectKeys u).filter (fun s => decide (s ≠ k)) := by
  unfold objectKeys deleteKey
  rw [List.filter_map]
  rfl

theorem getKey_eq_some_of_mem (u : Registry) (k : String) (r : UserRecord)
    (hnd : (objectKeys u).Nodup) (hmem : (k, r) ∈ u) : getKey u k = some r := by
  induction u with
  | nil => simp at hmem
  | cons p rest ih =>
    simp only [objectKeys, List.map_cons, List.nodup_cons] at hnd
    rcases List.mem_cons.mp hmem with h | h
    · rw [← h, getKey_cons]; simp
    · have hp1 : p.1 ≠ k := by
        intro hc
        exact hnd.1 (hc ▸ (List.mem_map.mpr ⟨(k, r), h, rfl⟩))
      rw [getKey_cons, if_neg hp1]
      exact ih hnd.2 h

theorem mem_of_getKey_eq_some (u : Registry) (k : String) (r : UserRecord)
    (h : getKey u k = some r) : (k, r) ∈ u := by
  induction u with
  | nil => simp [getKey] at h
  | cons p rest ih =>
    rw [getKey_cons] at h
    by_cases hp : p.1 = k
    · rw [if_pos hp] at h
      have hpr : p = (k, r) := by
        cases p with
        | mk a b =>
          simp only [Option.some.injEq] at h
          simp_all
      exact List.mem_cons.mpr (Or.inl hpr.symm)
    · rw [if_neg hp] at h
      exact List.mem_cons.mpr (Or.inr (ih h))

theorem findKeyByUsername_mem (u : Registry) (n : String) (d : String)
    (h : findKeyByUsername u n = some d) :
    ∃ r, (d, r) ∈ u ∧ r.username = n := by
  unfold findKeyByUsername at h
  rcases Option.map_eq_some'.mp h with ⟨p, hfind, hp1⟩
  have hmem := List.mem_of_find?_eq_some hfind
  have hprop := List.find?_some hfind
  simp only [decide_eq_true_eq] at hprop
  refine ⟨p.2, ?_, hprop⟩
  rw [← hp1]
  exact hmem

theorem findKeyByUsername_eq_none_iff (u : Registry) (n : String) :
    findKeyByUsername u n = none ↔ ∀ p ∈ u, p.2.username ≠ n := by
  unfold findKeyByUsername
  simp [List.find?_eq_none]

theorem findKeyByUsername_of_filter_single (u : Registry) (n : String)
    (x : String × UserRecord)
    (h : u.filter (fun p => decide (p.2.username = n)) = [x]) :
    findKeyByUsername u n = some x.1 := by
  unfold findKeyByUsername
  induction u with
  | nil => simp at h
  | cons p rest ih =>
    by_cases hp : p.2.username = n
    · rw [List.filter_cons_of_pos (by simpa using hp)] at h
      rw [List.find?_cons_of_pos _ (by simpa using hp)]
      have hpx : p = x := by
        have := congrArg (fun l => l.head?) h
        simpa using this
      rw [hpx]
      rfl
    · rw [List.filter_cons_of_neg (by simpa using hp)] at h
      rw [List.find?_cons_of_neg _ (by simpa using hp)]
      exact ih h

/-! ### Helper lemmas about the emit primitives -/

theorem emitToRoom_self (c : List String) (s : String) (ev : ServerEvent) :
    emitToRoom c s s ev = [] := by
  unfold emitToRoom
  have h : c.filter (fun x => decide (x = s ∧ x ≠ s)) = [] := by
    apply List.filter_eq_nil_iff.mpr
    intro x _
    simp only [decide_eq_true_eq, not_and]
    intro hx
    simp [hx]
  rw [h]
  rfl

theorem emitToRoom_single (c : List String) (s d : String) (ev : ServerEvent)
    (hnd : c.Nodup) (hd : d ∈ c) (hne : d ≠ s) :
    emitToRoom c s d ev = [(d, ev)] := by
  unfold emitToRoom
  have h : c.filter (fun x => decide (x = d ∧ x ≠ s)) = [d] := by
    induction c with
    | nil => simp at hd
    | cons a rest ih =>
      by_cases hda : a = d
      · subst hda
        rw [List.filter_cons_of_pos (by simp [hne])]
        have hrest : rest.filter (fun x => decide (x = a ∧ x ≠ s)) = [] := by
          apply List.filter_eq_nil_iff.mpr
          intro x hx
          have hxa : x ≠ a := fun hc => (List.nodup_cons.mp hnd).1 (hc ▸ hx)
          simp [hxa]
        rw [hrest]
      · have hdr : d ∈ rest := by
          rcases List.mem_cons.mp hd with hcase | hcase
          · exact absurd hcase.symm hda
          · exact hcase
        rw [List.filter_cons_of_neg (by simp [hda])]
        exact ih (List.nodup_cons.mp hnd).2 hdr
  rw [h]
  rfl

theorem emitToRoom_not_connected (c : List String) (s d : String) (ev : ServerEvent)
    (hd : d ∉ c) : emitToRoom c s d ev = [] := by
  unfold emitToRoom
  have h : c.filter (fun x => decide (x = d ∧ x ≠ s)) = [] := by
    apply List.filter_eq_nil_iff.mpr
    intro x hx
    have : x ≠ d := fun hc => hd (hc ▸ hx)
    simp [this]
  rw [h]
  rfl

/-! ### The claims -/

/-- C1, as frozen, is false on the code: an `offer` sent by connection "A"
that never joined, addressed to the registered name "bob", makes the handler
throw a TypeError (reading `username` of `undefined`) and deliver nothing,
instead of delivering with an absent `from` field. -/
theorem c1_counterexample :
    onOffer { connected := ["A", "B"], users := [("B", { username := "bob", id := "B" })] }
        "A" "bob" "P" =
      .error undefinedUsernameError := by
  rfl

/-- C1 (amended): for a sender that has not yet joined and a destination
name that resolves, the `offer`, `answer`, `ice-candidate` and `reject-call`
handlers throw a TypeError while reading the missing sender record and
deliver nothing; only `hang-up` is still delivered, and the delivered
`hang-up` event carries no `from` field at all. -/
theorem c1_relay_before_join
    (st : ServerState) (sender dest payload d : String)
    (hnj : getKey st.users sender = none)
    (hres : findKeyByUsername st.users dest = some d) :
    onOffer st sender dest payload = .error undefinedUsernameError ∧
    onAnswer st sender dest payload = .error undefinedUsernameError ∧
    onIceCandidate st sender dest payload = .error undefinedUsernameError ∧
    onRejectCall st sender dest = .error undefinedUsernameError ∧
    onHangUp st sender dest = .ok (st, emitToRoom st.connected sender d .hangUp) ∧
    eventFrom .hangUp = none := by
  refine ⟨?_, ?_, ?_, ?_, ?_, rfl⟩
  · unfold onOffer; rw [hres, hnj]
  · unfold onAnswer; rw [hres, hnj]
  · unfold onIceCandidate; rw [hres, hnj]
  · unfold onRejectCall; rw [hres, hnj]
  · unfold onHangUp; rw [hres]

/-- Witness for C1 (amended) at a concrete state: "B" is registered as
"bob", "A" never joined. -/
theorem c1_relay_before_join_witness :
    (getKey [("B", { username := "bob", id := "B" })] "A" = none ∧
     findKeyByUsername [("B", { username := "bob", id := "B" })] "bob" = some "B") ∧
    (onOffer { connected := ["A", "B"], users := [("B", { username := "bob", id := "B" })] }
        "A" "bob" "P" = .error undefinedUsernameError ∧
     onAnswer { connected := ["A", "B"], users := [("B", { username := "bob", id := "B" })] }
        "A" "bob" "P" = .error undefinedUsernameError ∧
     onIceCandidate { connected := ["A", "B"], users := [("B", { username := "bob", id := "B" })] }
        "A" "bob" "P" = .error undefinedUsernameError ∧
     onRejectCall { connected := ["A", "B"], users := [("B", { username := "bob", id := "B" })] }
        "A" "bob" = .error undefinedUsernameError ∧
     onHangUp { connected := ["A", "B"], users := [("B", { username := "bob", id := "B" })] }
        "A" "bob" =
       .ok ({ connected := ["A", "B"], users := [("B", { username := "bob", id := "B" })] },
            emitToRoom ["A", "B"] "A" "B" .hangUp) ∧
     eventFrom .hangUp = none) :=
  ⟨⟨rfl, rfl⟩,
   c1_relay_before_join
     { connected := ["A", "B"], users := [("B", { username := "bob", id := "B" })] }
     "A" "bob" "P" "B" rfl rfl⟩

/-- C2: when a joined client `A` with display name "alice" sends
`offer({to:"bob", offer:P})` and exactly one connection `B` is registered as
"bob", the full delivery list of the handler is `[(B, offer{from:"alice",
offer:P})]`: only `B` receives anything, the payload is unmodified, and
every other connected client receives nothing. -/
theorem c2_unicast_isolation
    (st : ServerState) (A B P : String)
    (hwf : WFState st)
    (hA : getKey st.users A = some { username := "alice", id := A })
    (hB : st.users.filter (fun p => decide (p.2.username = "bob")) =
          [(B, { username := "bob", id := B })]) :
    onOffer st A "bob" P = .ok (st, [(B, .offer "alice" P)]) := by
  obtain ⟨hkeys, hconn, hsub, _⟩ := hwf
  have hres : findKeyByUsername st.users "bob" = some B :=
    findKeyByUsername_of_filter_single st.users "bob" _ hB
  have hBmem : ((B, ({ username := "bob", id := B } : UserRecord)) ∈ st.users) := by
    have hm : ((B, ({ username := "bob", id := B } : UserRecord)) ∈
        st.users.filter (fun p => decide (p.2.username = "bob"))) := by
      rw [hB]; exact List.mem_singleton.mpr rfl
    exact List.mem_of_mem_filter hm
  have hBconn : B ∈ st.connected := hsub _ hBmem
  have hBA : B ≠ A := by
    intro hc
    have hgB : getKey st.users B = some { username := "bob", id := B } :=
      getKey_eq_some_of_mem st.users B _ hkeys hBmem
    rw [hc, hA] at hgB
    simp at hgB
  have hemit : emitToRoom st.connected A B (.offer "alice" P) = [(B, .offer "alice" P)] :=
    emitToRoom_single st.connected A B _ hconn hBconn hBA
  unfold onOffer
  rw [hres, hA]
  simp [hemit]

/-- Witness for C2: alice at "A", bob at "B", carol at "C", all connected. -/
theorem c2_unicast_isolation_witness :
    (WFState { connected := ["A", "B", "C"],
               users := [("A", { username := "alice", id := "A" }),
                         ("B", { username := "bob", id := "B" }),
                         ("C", { username := "carol", id := "C" })] } ∧
     getKey [("A", { username := "alice", id := "A" }),
             ("B", { username := "bob", id := "B" }),
             ("C", { username := "carol", id := "C" })] "A" =
       some { username := "alice", id := "A" } ∧
     List.filter (fun p => decide (p.2.username = "bob"))
         ([("A", { username := "alice", id := "A" }),
           ("B", { username := "bob", id := "B" }),
           ("C", { username := "carol", id := "C" })] : Registry) =
       [("B", { username := "bob", id := "B" })]) ∧
    onOffer { connected := ["A", "B", "C"],
              users := [("A", { username := "alice", id := "A" }),
                        ("B", { username := "bob", id := "B" }),
                        ("C", { username := "carol", id := "C" })] }
        "A" "bob" "P" =
      .ok ({ connected := ["A", "B", "C"],
             users := [("A", { username := "alice", id := "A" }),
                       ("B", { username := "bob", id := "B" }),
                       ("C", { username := "carol", id := "C" })] },
           [("B", .offer "alice" "P")]) :=
  ⟨⟨by unfold WFState; decide, rfl, rfl⟩,
   c2_unicast_isolation
     { connected := ["A", "B", "C"],
       users := [("A", { username := "alice", id := "A" }),
                 ("B", { username := "bob", id := "B" }),
                 ("C", { username := "carol", id := "C" })] }
     "A" "B" "P" (by unfold WFState; decide) rfl rfl⟩

/-- C3: a negotiation message of any of the five kinds whose destination
display name resolves to no registered connection is silently dropped: the
handler succeeds (no error back to the sender), delivers nothing, and
leaves the server state (in particular the registry) unchanged. -/
theorem c3_unresolved_destination_silent_drop
    (st : ServerState) (sender dest payload : String)
    (h : findKeyByUsername st.users dest = none) :
    ∀ ev ∈ relayEvents dest payload, serverStep st sender ev = .ok (st, []) := by
  intro ev hev
  simp only [relayEvents, List.mem_cons, List.not_mem_nil, or_false] at hev
  rcases hev with rfl | rfl | rfl | rfl | rfl
  · show onOffer st sender dest payload = .ok (st, [])
    unfold onOffer; rw [h]
  · show onAnswer st sender dest payload = .ok (st, [])
    unfold onAnswer; rw [h]
  · show onIceCandidate st sender dest payload = .ok (st, [])
    unfold onIceCandidate; rw [h]
  · show onRejectCall st sender dest = .ok (st, [])
    unfold onRejectCall; rw [h]
  · show onHangUp st sender dest = .ok (st, [])
    unfold onHangUp; rw [h]

/-- Witness for C3: "alice" is registered, "nobody" is not; an offer from
"A" to "nobody" is dropped with the state unchanged. -/
theorem c3_witness :
    (findKeyByUsername [("A", { username := "alice", id := "A" })] "nobody" = none ∧
     ClientEvent.offer "nobody" "P" ∈ relayEvents "nobody" "P") ∧
    serverStep { connected := ["A"], users := [("A", { username := "alice", id := "A" })] }
        "A" (.offer "nobody" "P") =
      .ok ({ connected := ["A"], users := [("A", { username := "alice", id := "A" })] }, []) :=
  ⟨⟨rfl, by simp [relayEvents]⟩,
   c3_unresolved_destination_silent_drop
     { connected := ["A"], users := [("A", { username := "alice", id := "A" })] }
     "A" "nobody" "P" rfl (.offer "nobody" "P") (by simp [relayEvents])⟩

/-- C5, as frozen, is false on the code: a resolved `hang-up` relay between
joined clients "A" ("alice") and "B" ("bob") delivers the bare `hang-up`
event, which carries no `from` field, so its `from` is not the sender's
display name "alice". -/
theorem c5_counterexample :
    onHangUp { connected := ["A", "B"],
               users := [("A", { username := "alice", id := "A" }),
                         ("B", { username := "bob", id := "B" })] } "A" "bob" =
      .ok ({ connected := ["A", "B"],
             users := [("A", { username := "alice", id := "A" }),
                       ("B", { username := "bob", id := "B" })] },
           [("B", .hangUp)]) ∧
    eventFrom .hangUp ≠ some "alice" := by
  constructor
  · rfl
  · decide

/-- C5 (amended): for a joined sender and a resolved destination, the
`offer`, `answer`, `ice-candidate` and `reject-call` relays forward an event
whose `from` field equals the sender's display name (plus the kind's
payload); the `hang-up` relay forwards a bare `hang-up` event with no `from`
field at all. -/
theorem c5_from_field
    (st : ServerState) (sender dest payload d : String) (r : UserRecord)
    (hs : getKey st.users sender = some r)
    (hres : findKeyByUsername st.users dest = some d) :
    onOffer st sender dest payload =
      .ok (st, emitToRoom st.connected sender d (.offer r.username payload)) ∧
    eventFrom (ServerEvent.offer r.username payload) = some r.username ∧
    onAnswer st sender dest payload =
      .ok (st, emitToRoom st.connected sender d (.answer r.username payload)) ∧
    eventFrom (ServerEvent.answer r.username payload) = some r.username ∧
    onIceCandidate st sender dest payload =
      .ok (st, emitToRoom st.connected sender d (.iceCandidate r.username payload)) ∧
    eventFrom (ServerEvent.iceCandidate r.username payload) = some r.username ∧
    onRejectCall st sender dest =
      .ok (st, emitToRoom st.connected sender d (.callRejected r.username)) ∧
    eventFrom (ServerEvent.callRejected r.username) = some r.username ∧
    onHangUp st sender dest = .ok (st, emitToRoom st.connected sender d .hangUp) ∧
    eventFrom ServerEvent.hangUp = none := by
  refine ⟨?_, rfl, ?_, rfl, ?_, rfl, ?_, rfl, ?_, rfl⟩
  · unfold onOffer; rw [hres, hs]
  · unfold onAnswer; rw [hres, hs]
  · unfold onIceCandidate; rw [hres, hs]
  · unfold onRejectCall; rw [hres, hs]
  · unfold onHangUp; rw [hres]

/-- Witness for C5 (amended): "A" is "alice", "B" is "bob", offer relayed
from "A" to "bob". -/
theorem c5_from_field_witness :
    (getKey [("A", { username := "alice", id := "A" }),
             ("B", { username := "bob", id := "B" })] "A" =
       some { username := "alice", id := "A" } ∧
     findKeyByUsername [("A", { username := "alice", id := "A" }),
                        ("B", { username := "bob", id := "B" })] "bob" = some "B") ∧
    onOffer { connected := ["A", "B"],
              users := [("A", { username := "alice", id := "A" }),
                        ("B", { username := "bob", id := "B" })] } "A" "bob" "P" =
      .ok ({ connected := ["A", "B"],
             users := [("A", { username := "alice", id := "A" }),
                       ("B", { username := "bob", id := "B" })] },
           emitToRoom ["A", "B"] "A" "B" (.offer "alice" "P")) :=
  ⟨⟨rfl, rfl⟩,
   (c5_from_field
     { connected := ["A", "B"],
       users := [("A", { username := "alice", id := "A" }),
                 ("B", { username := "bob", id := "B" })] }
     "A" "bob" "P" "B" { username := "alice", id := "A" } rfl rfl).1⟩

/-- C6, as frozen, is false on the code: with "S1" and "S2" both registered
as "carol", a relay addressed to "carol" sent by "S1" (the holder the name
resolves to) is received by zero of the duplicate holders, because
`socket.to` excludes the sender from the target room. -/
theorem c6_counterexample :
    onOffer { connected := ["S1", "S2"],
              users := [("S1", { username := "carol", id := "S1" }),
                        ("S2", { username := "carol", id := "S2" })] }
        "S1" "carol" "P" =
      .ok ({ connected := ["S1", "S2"],
             users := [("S1", { username := "carol", id := "S1" }),
                       ("S2", { username := "carol", id := "S2" })] },
           []) := by
  rfl

/-- C6 (amended): when two connections are registered under the same display
name, resolving that name returns the first registry entry bound to it (a
deterministic function of the registry state), and a relay addressed to
that name from a joined sender that is not the resolved connection is
received by exactly that one holder — not zero and not both.  (A relay sent
by the resolved holder itself is received by no one, and a sender that has
not joined makes the non-hang-up handlers throw.) -/
theorem c6_duplicate_names
    (st : ServerState) (sender dest payload d k1 k2 : String)
    (r1 r2 rs : UserRecord)
    (hwf : WFState st)
    (_hdup1 : (k1, r1) ∈ st.users) (_hdup2 : (k2, r2) ∈ st.users)
    (_hk12 : k1 ≠ k2) (_hn1 : r1.username = dest) (_hn2 : r2.username = dest)
    (hres : findKeyByUsername st.users dest = some d)
    (hs : getKey st.users sender = some rs)
    (hne : d ≠ sender) :
    (∃ rec, (d, rec) ∈ st.users ∧ rec.username = dest) ∧
    onOffer st sender dest payload = .ok (st, [(d, .offer rs.username payload)]) ∧
    onHangUp st sender dest = .ok (st, [(d, .hangUp)]) := by
  obtain ⟨hkeys, hconn, hsub, _⟩ := hwf
  obtain ⟨rec, hdmem, hdname⟩ := findKeyByUsername_mem st.users dest d hres
  have hdconn : d ∈ st.connected := hsub _ hdmem
  refine ⟨⟨rec, hdmem, hdname⟩, ?_, ?_⟩
  · have hemit := emitToRoom_single st.connected sender d
      (.offer rs.username payload) hconn hdconn hne
    unfold onOffer
    rw [hres, hs]
    simp [hemit]
  · have hemit := emitToRoom_single st.connected sender d .hangUp hconn hdconn hne
    unfold onHangUp
    rw [hres]
    simp [hemit]

/-- Witness for C6 (amended): "S1" and "S2" both joined as "carol", sender
"X" joined as "xavier"; the offer reaches exactly "S1". -/
theorem c6_duplicate_names_witness :
    (WFState { connected := ["S1", "S2", "X"],
               users := [("S1", { username := "carol", id := "S1" }),
                         ("S2", { username := "carol", id := "S2" }),
                         ("X", { username := "xavier", id := "X" })] } ∧
     findKeyByUsername [("S1", { username := "carol", id := "S1" }),
                        ("S2", { username := "carol", id := "S2" }),
                        ("X", { username := "xavier", id := "X" })] "carol" = some "S1" ∧
     getKey [("S1", { username := "carol", id := "S1" }),
             ("S2", { username := "carol", id := "S2" }),
             ("X", { username := "xavier", id := "X" })] "X" =
       some { username := "xavier", id := "X" }) ∧
    onOffer { connected := ["S1", "S2", "X"],
              users := [("S1", { username := "carol", id := "S1" }),
                        ("S2", { username := "carol", id := "S2" }),
                        ("X", { username := "xavier", id := "X" })] }
        "X" "carol" "P" =
      .ok ({ connected := ["S1", "S2", "X"],
             users := [("S1", { username := "carol", id := "S1" }),
                       ("S2", { username := "carol", id := "S2" }),
                       ("X", { username := "xavier", id := "X" })] },
           [("S1", .offer "xavier" "P")]) :=
  ⟨⟨by unfold WFState; decide, rfl, rfl⟩,
   (c6_duplicate_names
     { connected := ["S1", "S2", "X"],
       users := [("S1", { username := "carol", id := "S1" }),
                 ("S2", { username := "carol", id := "S2" }),
                 ("X", { username := "xavier", id := "X" })] }
     "X" "carol" "P" "S1" "S1" "S2"
     { username := "carol", id := "S1" } { username := "carol", id := "S2" }
     { username := "xavier", id := "X" }
     (by unfold WFState; decide)
     (by decide) (by decide) (by decide) rfl rfl rfl rfl (by decide)).2.1⟩

/-- C7: the registry keeps at most one presence record per connection,
keyed by the connection id: a `join` installs `{username, id}` under the
sender's key, replacing any previous record in place (the key sequence is
unchanged when the sender was already registered, extended by exactly the
sender's key otherwise), leaves every other connection's record untouched,
keeps the keys duplicate-free, and accepts any display name (the empty
string included) without an error path. -/
theorem c7_register_replaces_in_place
    (st : ServerState) (sender username : String)
    (hnd : (objectKeys st.users).Nodup) :
    getKey (onJoin st sender username).1.users sender =
      some { username := username, id := sender } ∧
    (∀ k, k ≠ sender → getKey (onJoin st sender username).1.users k = getKey st.users k) ∧
    (objectKeys (onJoin st sender username).1.users).Nodup ∧
    objectKeys (onJoin st sender username).1.users =
      (if sender ∈ objectKeys st.users then objectKeys st.users
       else objectKeys st.users ++ [sender]) ∧
    serverStep st sender (.join username) = .ok (onJoin st sender username) := by
  have husers : (onJoin st sender username).1.users =
      setKey st.users sender { username := username, id := sender } := rfl
  refine ⟨?_, ?_, ?_, ?_, rfl⟩
  · rw [husers]; exact getKey_setKey_self st.users sender _
  · intro k hk
    rw [husers]; exact getKey_setKey_ne st.users sender k _ hk
  · rw [husers]; exact nodup_objectKeys_setKey st.users sender _ hnd
  · rw [husers]; exact objectKeys_setKey st.users sender _

/-- Witness for C7: re-join of "A" under the empty display name replaces
its record in place and leaves "B" untouched. -/
theorem c7_register_replaces_in_place_witness :
    (objectKeys [("A", { username := "alice", id := "A" }),
                 ("B", { username := "bob", id := "B" })]).Nodup ∧
    getKey (onJoin { connected := ["A", "B"],
                     users := [("A", { username := "alice", id := "A" }),
                               ("B", { username := "bob", id := "B" })] } "A" "").1.users "A" =
      some { username := "", id := "A" } :=
  ⟨by decide,
   (c7_register_replaces_in_place
     { connected := ["A", "B"],
       users := [("A", { username := "alice", id := "A" }),
                 ("B", { username := "bob", id := "B" })] }
     "A" "" (by decide)).1⟩

/-- C8: disconnecting a connection whose id is absent from the registry (it
never joined, or a previous disconnect already removed it) is a no-op on
the registry rather than an error: the handler runs normally and the
registry is left exactly as it was, so no other connection's record is
affected. -/
theorem c8_unregister_absent_noop
    (st : ServerState) (sender : String)
    (h : getKey st.users sender = none) :
    (onDisconnect st sender).1.users = st.users ∧
    (∀ k, k ≠ sender → getKey (onDisconnect st sender).1.users k = getKey st.users k) ∧
    serverStep st sender .disconnect = .ok (onDisconnect st sender) := by
  have husers : (onDisconnect st sender).1.users = deleteKey st.users sender := rfl
  refine ⟨?_, ?_, rfl⟩
  · rw [husers]; exact deleteKey_of_absent st.users sender h
  · intro k hk
    rw [husers]; exact getKey_deleteKey_ne st.users sender k hk

/-- Witness for C8: disconnecting never-joined "Z" leaves alice's record
(and the whole registry) unchanged. -/
theorem c8_unregister_absent_noop_witness :
    getKey [("A", { username := "alice", id := "A" })] "Z" = none ∧
    (onDisconnect { connected := ["A", "Z"],
                    users := [("A", { username := "alice", id := "A" })] } "Z").1.users =
      [("A", { username := "alice", id := "A" })] :=
  ⟨rfl,
   (c8_unregister_absent_noop
     { connected := ["A", "Z"], users := [("A", { username := "alice", id := "A" })] }
     "Z" rfl).1⟩

/-- C9: the forwarding primitive never delivers back to the sender: when the
destination name resolves to the sender's own connection id, every one of
the five relay kinds succeeds while delivering to no connection at all,
because `socket.to` excludes the sender from the target room. -/
theorem c9_no_self_delivery
    (st : ServerState) (sender dest payload : String)
    (hwf : WFState st)
    (hres : findKeyByUsername st.users dest = some sender) :
    ∀ ev ∈ relayEvents dest payload, serverStep st sender ev = .ok (st, []) := by
  obtain ⟨hkeys, _, _, _⟩ := hwf
  obtain ⟨rec, hmem, _⟩ := findKeyByUsername_mem st.users dest sender hres
  have hs : getKey st.users sender = some rec :=
    getKey_eq_some_of_mem st.users sender rec hkeys hmem
  have hemit : ∀ ev : ServerEvent, emitToRoom st.connected sender sender ev = [] :=
    fun ev => emitToRoom_self st.connected sender ev
  intro ev hev
  simp only [relayEvents, List.mem_cons, List.not_mem_nil, or_false] at hev
  rcases hev with rfl | rfl | rfl | rfl | rfl
  · show onOffer st sender dest payload = .ok (st, [])
    unfold onOffer; rw [hres, hs]; simp [hemit]
  · show onAnswer st sender dest payload = .ok (st, [])
    unfold onAnswer; rw [hres, hs]; simp [hemit]
  · show onIceCandidate st sender dest payload = .ok (st, [])
    unfold onIceCandidate; rw [hres, hs]; simp [hemit]
  · show onRejectCall st sender dest = .ok (st, [])
    unfold onRejectCall; rw [hres, hs]; simp [hemit]
  · show onHangUp st sender dest = .ok (st, [])
    unfold onHangUp; rw [hres]; simp [hemit]

/-- Witness for C9: "S1" is the first "carol" holder; its own offer to
"carol" resolves to itself and is delivered to nobody. -/
theorem c9_no_self_delivery_witness :
    (WFState { connected := ["S1", "S2"],
               users := [("S1", { username := "carol", id := "S1" }),
                         ("S2", { username := "carol", id := "S2" })] } ∧
     findKeyByUsername [("S1", { username := "carol", id := "S1" }),
                        ("S2", { username := "carol", id := "S2" })] "carol" = some "S1" ∧
     ClientEvent.offer "carol" "P" ∈ relayEvents "carol" "P") ∧
    serverStep { connected := ["S1", "S2"],
                 users := [("S1", { username := "carol", id := "S1" }),
                           ("S2", { username := "carol", id := "S2" })] }
        "S1" (.offer "carol" "P") =
      .ok ({ connected := ["S1", "S2"],
             users := [("S1", { username := "carol", id := "S1" }),
                       ("S2", { username := "carol", id := "S2" })] }, []) :=
  ⟨⟨by unfold WFState; decide, rfl, by simp [relayEvents]⟩,
   c9_no_self_delivery
     { connected := ["S1", "S2"],
       users := [("S1", { username := "carol", id := "S1" }),
                 ("S2", { username := "carol", id := "S2" })] }
     "S1" "carol" "P" (by unfold WFState; decide) rfl
     (.offer "carol" "P") (by simp [relayEvents])⟩

/-- C10: the passthrough endpoint fetches with a 10000 ms timeout and a cap
of 5 redirects, on success responds 200 with the fetched HTML passed
through `rewriteHtml` (root-relative `href`/`src`/`action` attributes made
absolute against the target origin and a `<base>` tag spliced after
`<head>`), on any fetch failure responds 500 with an error body, and in
every case passes the signaling state through untouched. -/
theorem c10_proxy_endpoint
    (st : ServerState) (targetUrl origin html msg : String)
    (hurl : targetUrl ≠ "") :
    proxyAxiosConfig.timeout = 10000 ∧
    proxyAxiosConfig.maxRedirects = 5 ∧
    proxyHandler (some targetUrl) origin (.success html) =
      { status := 200, body := .html (rewriteHtml origin targetUrl html) } ∧
    proxyHandler (some targetUrl) origin (.failure msg) =
      { status := 500, body := .errorJson "Failed to fetch website" (some msg) } ∧
    (∀ fetch : FetchResult, (proxyStep st (some targetUrl) origin fetch).1 = st) := by
  refine ⟨rfl, rfl, ?_, ?_, fun _ => rfl⟩
  · simp [proxyHandler, hurl]
  · simp [proxyHandler, hurl]

/-- Witness for C10 at a concrete URL, HTML body and failure message. -/
theorem c10_proxy_endpoint_witness :
    ("http://ex.com/p" ≠ "") ∧
    proxyHandler (some "http://ex.com/p") "http://ex.com"
        (.failure "timeout of 10000ms exceeded") =
      { status := 500,
        body := .errorJson "Failed to fetch website" (some "timeout of 10000ms exceeded") } :=
  ⟨by decide,
   (c10_proxy_endpoint
     { connected := [], users := [] }
     "http://ex.com/p" "http://ex.com" "<html><head></head></html>"
     "timeout of 10000ms exceeded" (by decide)).2.2.2.1⟩


/-! ### Trace lemmas for the presence invariant -/

theorem runTrace_cons (ts : TraceState) (ev : TraceEvent) (rest : List TraceEvent) :
    runTrace ts (ev :: rest) = runTrace (traceStep ts ev) rest := rfl

theorem expectedRec_cons (ev : TraceEvent) (tr : List TraceEvent) (sid : String)
    (base : Option UserRecord) :
    expectedRec (ev :: tr) sid base =
      expectedRec tr sid
        (match ev with
         | .join s n => if s = sid then some { username := n, id := s } else base
         | .disconnect s => if s = sid then none else base
         | .connect _ => base) := rfl

theorem getKey_isSome_iff (u : Registry) (k : String) :
    (getKey u k).isSome ↔ k ∈ objectKeys u := by
  unfold getKey
  rw [Option.isSome_map', List.find?_isSome]
  simp [mem_objectKeys_iff]

theorem mem_setKey (u : Registry) (k : String) (v : UserRecord) (p : String × UserRecord)
    (hp : p ∈ setKey u k v) : p = (k, v) ∨ p ∈ u := by
  unfold setKey at hp
  by_cases h : k ∈ objectKeys u
  · rw [if_pos h] at hp
    rcases List.mem_map.mp hp with ⟨q, hq, he⟩
    by_cases hqk : q.1 = k
    · left; rw [← he]; simp [hqk]
    · right; rw [← he]; simp only [hqk, if_false]; exact hq
  · rw [if_neg h] at hp
    rcases List.mem_append.mp hp with h1 | h1
    · right; exact h1
    · left; simpa using h1

theorem getKey_runTrace (tr : List TraceEvent) (ts : TraceState) (sid : String) :
    getKey (runTrace ts tr).st.users sid = expectedRec tr sid (getKey ts.st.users sid) := by
  induction tr generalizing ts with
  | nil => rfl
  | cons ev rest ih =>
    rw [runTrace_cons, ih, expectedRec_cons]
    apply congrArg (expectedRec rest sid)
    cases ev with
    | connect s => rfl
    | join s n =>
      show getKey (setKey ts.st.users s { username := n, id := s }) sid =
        if s = sid then some { username := n, id := s } else getKey ts.st.users sid
      by_cases hs : s = sid
      · rw [if_pos hs, hs]
        exact getKey_setKey_self ts.st.users sid _
      · rw [if_neg hs]
        exact getKey_setKey_ne ts.st.users s sid _ (fun hc => hs hc.symm)
    | disconnect s =>
      show getKey (deleteKey ts.st.users s) sid =
        if s = sid then none else getKey ts.st.users sid
      by_cases hs : s = sid
      · rw [if_pos hs, hs]
        exact getKey_deleteKey_self ts.st.users sid
      · rw [if_neg hs]
        exact getKey_deleteKey_ne ts.st.users s sid (fun hc => hs hc.symm)

theorem wfState_runTrace (tr : List TraceEvent) (ts : TraceState)
    (hwf : WFState ts.st) (htr : wfTrace ts.st.connected tr = true) :
    WFState (runTrace ts tr).st := by
  induction tr generalizing ts with
  | nil => exact hwf
  | cons ev rest ih =>
    obtain ⟨hkeys, hconn, hsub, hids⟩ := hwf
    rw [runTrace_cons]
    cases ev with
    | connect s =>
      simp only [wfTrace, Bool.and_eq_true, decide_eq_true_eq] at htr
      obtain ⟨hfresh, hrest⟩ := htr
      apply ih
      · refine ⟨hkeys, ?_, ?_, hids⟩
        · exact List.Nodup.append hconn (List.nodup_singleton s)
            (by intro a ha hb; rw [List.mem_singleton] at hb; exact hfresh (hb ▸ ha))
        · intro p hp
          exact List.mem_append.mpr (Or.inl (hsub p hp))
      · exact hrest
    | join s n =>
      simp only [wfTrace, Bool.and_eq_true, decide_eq_true_eq] at htr
      obtain ⟨hmem, hrest⟩ := htr
      apply ih
      · refine ⟨?_, hconn, ?_, ?_⟩
        · exact nodup_objectKeys_setKey ts.st.users s _ hkeys
        · intro p hp
          rcases mem_setKey ts.st.users s _ p hp with h | h
          · rw [h]; exact hmem
          · exact hsub p h
        · intro p hp
          rcases mem_setKey ts.st.users s _ p hp with h | h
          · rw [h]
          · exact hids p h
      · exact hrest
    | disconnect s =>
      simp only [wfTrace, Bool.and_eq_true, decide_eq_true_eq] at htr
      obtain ⟨_, hrest⟩ := htr
      apply ih
      · refine ⟨?_, ?_, ?_, ?_⟩
        · show (objectKeys (deleteKey ts.st.users s)).Nodup
          rw [objectKeys_deleteKey]
          exact List.Nodup.filter _ hkeys
        · exact List.Nodup.filter _ hconn
        · intro p hp
          have hpu : p ∈ ts.st.users := List.mem_of_mem_filter hp
          have hps : p.1 ≠ s := by
            have := List.of_mem_filter hp
            simpa using this
          exact List.mem_filter.mpr ⟨hsub p hpu, by simpa using hps⟩
        · intro p hp
          exact hids p (List.mem_of_mem_filter hp)
      · exact hrest

theorem runTrace_no_mutation (tr : List TraceEvent) (ts : TraceState)
    (h : hasMutation tr = false) :
    (runTrace ts tr).st.users = ts.st.users ∧
    (runTrace ts tr).lastSnapshot = ts.lastSnapshot := by
  induction tr generalizing ts with
  | nil => exact ⟨rfl, rfl⟩
  | cons ev rest ih =>
    cases ev with
    | connect s =>
      rw [runTrace_cons]
      exact ih (traceStep ts (.connect s)) (by simpa [hasMutation] using h)
    | join s n => simp [hasMutation] at h
    | disconnect s => simp [hasMutation] at h

theorem lastSnapshot_runTrace (tr : List TraceEvent) (ts : TraceState)
    (h : hasMutation tr = true) :
    (runTrace ts tr).lastSnapshot = some (objectValues (runTrace ts tr).st.users) := by
  induction tr generalizing ts with
  | nil => simp [hasMutation] at h
  | cons ev rest ih =>
    rw [runTrace_cons]
    cases ev with
    | connect s =>
      exact ih (traceStep ts (.connect s)) (by simpa [hasMutation] using h)
    | join s n =>
      by_cases hr : hasMutation rest = true
      · exact ih _ hr
      · have hnm := runTrace_no_mutation rest (traceStep ts (.join s n))
          (by simpa using hr)
        rw [hnm.2, hnm.1]
        rfl
    | disconnect s =>
      by_cases hr : hasMutation rest = true
      · exact ih _ hr
      · have hnm := runTrace_no_mutation rest (traceStep ts (.disconnect s))
          (by simpa using hr)
        rw [hnm.2, hnm.1]
        rfl

/-- C4: after any well-formed finite sequence of connects, joins and
disconnects containing at least one registry mutation, the user list
carried by the most recent `update-users` broadcast is exactly
`Object.values(users)` of the final state; the registry holds, per
connection id, exactly the record determined by that connection's last
join-or-disconnect (so never-joined connections are absent and
disconnected connections removed, and each present record is `{id,
username}` with the current display name); and its size equals the number
of currently connected, joined clients. -/
theorem c4_presence_snapshot (tr : List TraceEvent)
    (htr : wfTrace [] tr = true) (hmut : hasMutation tr = true) :
    (runTrace initTS tr).lastSnapshot =
      some (objectValues (runTrace initTS tr).st.users) ∧
    (∀ sid, getKey (runTrace initTS tr).st.users sid = expectedRec tr sid none) ∧
    (∀ p ∈ (runTrace initTS tr).st.users, expectedRec tr p.1 none = some p.2) ∧
    (objectValues (runTrace initTS tr).st.users).length =
      ((runTrace initTS tr).st.connected.filter
        (fun sid => (expectedRec tr sid none).isSome)).length := by
  have hwfInit : WFState initTS.st := by
    refine ⟨?_, ?_, ?_, ?_⟩ <;> simp [initTS, objectKeys]
  have hwf : WFState (runTrace initTS tr).st := wfState_runTrace tr initTS hwfInit htr
  have hchar : ∀ sid, getKey (runTrace initTS tr).st.users sid = expectedRec tr sid none :=
    fun sid => getKey_runTrace tr initTS sid
  obtain ⟨hkeys, hconn, hsub, _⟩ := hwf
  have hrec : ∀ p ∈ (runTrace initTS tr).st.users, expectedRec tr p.1 none = some p.2 := by
    intro p hp
    have hg : getKey (runTrace initTS tr).st.users p.1 = some p.2 := by
      apply getKey_eq_some_of_mem _ p.1 p.2 hkeys
      cases p
      exact hp
    exact (hchar p.1).symm.trans hg
  refine ⟨lastSnapshot_runTrace tr initTS hmut, hchar, hrec, ?_⟩
  have hmemiff : ∀ sid, sid ∈ objectKeys (runTrace initTS tr).st.users ↔
      sid ∈ (runTrace initTS tr).st.connected.filter
        (fun sid => (expectedRec tr sid none).isSome) := by
    intro sid
    rw [List.mem_filter]
    constructor
    · intro hk
      have hsome : (getKey (runTrace initTS tr).st.users sid).isSome = true :=
        (getKey_isSome_iff _ _).mpr hk
      refine ⟨?_, ?_⟩
      · obtain ⟨q, hq, hq1⟩ := (mem_objectKeys_iff _ _).mp hk
        exact hq1 ▸ hsub q hq
      · rw [← hchar sid]
        exact hsome
    · rintro ⟨_, hsome⟩
      rw [← hchar sid] at hsome
      exact (getKey_isSome_iff _ _).mp hsome
  have hperm : (objectKeys (runTrace initTS tr).st.users).Perm
      ((runTrace initTS tr).st.connected.filter
        (fun sid => (expectedRec tr sid none).isSome)) :=
    (List.perm_ext_iff_of_nodup hkeys (List.Nodup.filter _ hconn)).mpr hmemiff
  have hlen := hperm.length_eq
  have hvals : (objectValues (runTrace initTS tr).st.users).length =
      (objectKeys (runTrace initTS tr).st.users).length := by
    simp [objectValues, objectKeys]
  exact hvals.trans hlen

/-- Witness for C4: the trace connect A, join A "alice", connect B,
join B "bob", disconnect A. -/
theorem c4_presence_snapshot_witness :
    (wfTrace [] [TraceEvent.connect "A", .join "A" "alice", .connect "B",
                 .join "B" "bob", .disconnect "A"] = true ∧
     hasMutation [TraceEvent.connect "A", .join "A" "alice", .connect "B",
                  .join "B" "bob", .disconnect "A"] = true) ∧
    (runTrace initTS [TraceEvent.connect "A", .join "A" "alice", .connect "B",
                      .join "B" "bob", .disconnect "A"]).lastSnapshot =
      some (objectValues (runTrace initTS
        [TraceEvent.connect "A", .join "A" "alice", .connect "B",
         .join "B" "bob", .disconnect "A"]).st.users) :=
  ⟨⟨rfl, rfl⟩,
   (c4_presence_snapshot
     [TraceEvent.connect "A", .join "A" "alice", .connect "B",
      .join "B" "bob", .disconnect "A"] rfl rfl).1⟩

end WowPages
